import Mathlib

/-!
# Verification of the multi-threading tutorial repository

The repository consists of two Python scripts (`initial_concepts.py` and
`real-world_example.py`) that demonstrate a bounded worker pool with two
retrieval modes (order-preserving `map` and completion-order `as_completed`).
The pool engine itself is supplied by the runtime library
(`concurrent.futures.ThreadPoolExecutor`); the scripts are its callers.

This file contains:
* a shallow embedding of the worker-pool core described by the specification
  (work items, outcomes, futures, a submission/results ledger, ordered and
  as-completed retrieval, shutdown, construction) — every such definition is
  marked `Modelled from the spec:` because the pool's code is not part of the
  repository's sources, only its callers are;
* a shallow embedding of the repository's own code in
  `real-world_example.py` (`download_image`, `get_images_standard`,
  the `img_urls` list), translated directly from the source;
* theorems settling the behavioural claims about both.

Scheduling nondeterminism is made explicit: a run of the pool is
parameterised by a *completion schedule* `sched : List Nat`, the sequence of
submission indices in the order their work items happen to finish.  A
schedule is admissible when it is a permutation of the submitted indices.
Properties quantify over all admissible schedules, which captures
"independently of the order in which the items actually finish".
-/

namespace WorkerPool

/-- Modelled from the spec: an `Outcome` is the result of executing a
`WorkItem` — either a success value or a failure record (captured error
info); a tagged union with exactly one variant populated. -/
inductive Outcome (β : Type) where
  | success (v : β)
  | failure (e : String)
deriving DecidableEq, Repr

/-- Modelled from the spec: a `WorkItem` is an opaque caller-supplied unit of
work; running it either produces a value or raises an error.  Its submission
index is assigned at enqueue time and is represented here by the item's
position in the submitted list. -/
structure WorkItem (β : Type) where
  run : Except String β
deriving Repr

/-- Modelled from the spec: executing a work item captures a raised error
into the failure variant of its `Outcome` instead of propagating it. -/
def execItem {β : Type} (w : WorkItem β) : Outcome β :=
  match w.run with
  | .ok v => .success v
  | .error e => .failure e

/-- Modelled from the spec: executing the work item at submission index `i`
of the submitted list; an index with no item yields a failure record (this
case never arises under an admissible schedule). -/
def execAt {β : Type} (items : List (WorkItem β)) (i : Nat) : Outcome β :=
  match items[i]? with
  | some w => execItem w
  | none => .failure "no such submission index"

/-- Modelled from the spec: the results ledger built by the workers — one
`(submission index, Outcome)` entry recorded per completed item, in
completion order `sched`. -/
def runLedger {β : Type} (items : List (WorkItem β)) (sched : List Nat) :
    List (Nat × Outcome β) :=
  sched.map fun i => (i, execAt items i)

/-- Modelled from the spec: reading the recorded `Outcome` for submission
index `i` back out of the ledger; `none` while the future is still pending. -/
def lookupOutcome {β : Type} (ledger : List (Nat × Outcome β)) (i : Nat) :
    Option (Outcome β) :=
  (ledger.find? fun p => p.1 == i).map Prod.snd

/-- Modelled from the spec: `MapOrdered` submits all items preserving input
order, waits for all completions (the full schedule `sched`), and reads the
results ledger back in submission-index order. -/
def MapOrdered {β : Type} (items : List (WorkItem β)) (sched : List Nat) :
    List (Option (Outcome β)) :=
  (List.range items.length).map (lookupOutcome (runLedger items sched))

/-- Modelled from the spec: `AsCompleted` yields each future's Outcome as
soon as it completes, i.e. it pairs each index of the completion schedule
with that item's Outcome, in completion order. -/
def AsCompleted {β : Type} (items : List (WorkItem β)) (sched : List Nat) :
    List (Nat × Outcome β) :=
  sched.map fun i => (i, execAt items i)

/-- Modelled from the spec: retrieving a failed Outcome re-surfaces the
captured error at the point of retrieval; a success Outcome returns its
value. -/
def raiseOnRetrieve {β : Type} : Outcome β → Except String β
  | .success v => .ok v
  | .failure e => .error e

/-! ## Basic ledger lemmas (shared helpers) -/

theorem lookupOutcome_cons {β : Type} (j : Nat) (o : Outcome β)
    (rest : List (Nat × Outcome β)) (i : Nat) :
    lookupOutcome ((j, o) :: rest) i =
      if j = i then some o else lookupOutcome rest i := by
  simp only [lookupOutcome, List.find?]
  by_cases h : j = i
  · simp [h]
  · simp [h, beq_eq_false_iff_ne.mpr h]

theorem lookup_runLedger_of_mem {β : Type} (items : List (WorkItem β)) :
    ∀ (sched : List Nat) (i : Nat), i ∈ sched →
      lookupOutcome (runLedger items sched) i = some (execAt items i) := by
  intro sched
  induction sched with
  | nil => intro i h; cases h
  | cons j rest ih =>
    intro i h
    simp only [runLedger, List.map_cons]
    rw [lookupOutcome_cons]
    by_cases hji : j = i
    · subst hji; simp
    · simp only [hji, if_false]
      rcases List.mem_cons.mp h with h1 | h2
      · exact absurd h1.symm hji
      · exact ih i h2

theorem mapOrdered_eq_map {β : Type} (items : List (WorkItem β))
    (sched : List Nat) (h : sched.Perm (List.range items.length)) :
    MapOrdered items sched = items.map fun w => some (execItem w) := by
  apply List.ext_getElem
  · simp [MapOrdered]
  · intro i h1 h2
    have hi : i < items.length := by
      simpa [MapOrdered] using h1
    have hmem : i ∈ sched := h.mem_iff.mpr (List.mem_range.mpr hi)
    have hgi : items[i]? = some (items.get ⟨i, hi⟩) := List.getElem?_eq_getElem hi
    simp only [MapOrdered, List.getElem_map, List.getElem_range]
    rw [lookup_runLedger_of_mem items sched i hmem]
    simp [execAt, hgi]

/-! ## The pool as a state machine

`PoolState` records the submitted items, the results ledger, and a log of
every execution the workers performed (used to state that retrieval never
re-executes work).  One `step` is a worker completing the item at one
submission index. -/

/-- Modelled from the spec: the pool's shared mutable state — the submitted
work items (by submission index), the results ledger, and the log of
executions performed by the workers. -/
structure PoolState (β : Type) where
  items : List (WorkItem β)
  ledger : List (Nat × Outcome β)
  execLog : List Nat

/-- Modelled from the spec: one worker finishing the item at submission
index `i` — it executes the item, records the Outcome in the ledger and
signals completion. -/
def step {β : Type} (st : PoolState β) (i : Nat) : PoolState β :=
  { st with
    ledger := st.ledger ++ [(i, execAt st.items i)]
    execLog := st.execLog ++ [i] }

/-- Modelled from the spec: the state of a fresh pool right after the items
have been submitted — every future pending, nothing executed yet. -/
def initState {β : Type} (items : List (WorkItem β)) : PoolState β :=
  ⟨items, [], []⟩

/-- Modelled from the spec: a complete run of the pool — the workers finish
the items one by one in completion order `sched`. -/
def runPool {β : Type} (items : List (WorkItem β)) (sched : List Nat) :
    PoolState β :=
  sched.foldl step (initState items)

/-- Modelled from the spec: the pool state after the first `k` completions
of the schedule. -/
def runPoolUpTo {β : Type} (items : List (WorkItem β)) (sched : List Nat)
    (k : Nat) : PoolState β :=
  (sched.take k).foldl step (initState items)

/-- Modelled from the spec: the status of the future with submission index
`i` — `none` while pending, `some o` once completed with Outcome `o`. -/
def completedIn {β : Type} (st : PoolState β) (i : Nat) : Option (Outcome β) :=
  lookupOutcome st.ledger i

/-- Modelled from the spec: `Shutdown(wait := true)` stops accepting
submissions and blocks until all currently queued and in-flight work items
(the rest of the schedule) have completed, returning only then. -/
def shutdownWait {β : Type} (st : PoolState β) (remaining : List Nat) :
    PoolState β :=
  remaining.foldl step st

/-- Modelled from the spec: `Future.Get` retrieves the recorded Outcome of
submission index `i` from the ledger, blocking until it exists; it reads the
ledger and performs no execution, returning the Outcome together with the
(unchanged) pool state. -/
def Get {β : Type} (st : PoolState β) (i : Nat) :
    Option (Outcome β) × PoolState β :=
  (lookupOutcome st.ledger i, st)

/-! ## Pool construction -/

/-- Modelled from the spec: construction error taxonomy — invalid pool
construction parameters. -/
inductive ConfigError where
  | nonPositiveWorkerCount
deriving DecidableEq, Repr

/-- Modelled from the spec: a constructed pool instance owning a fixed
number of worker threads. -/
structure Pool where
  workerCount : Int
deriving DecidableEq, Repr

/-- Modelled from the spec: `New(workerCount)` fails with `ConfigError` if
`workerCount <= 0`, otherwise allocates a pool with that many workers. -/
def New (workerCount : Int) : Except ConfigError Pool :=
  if workerCount ≤ 0 then .error .nonPositiveWorkerCount
  else .ok ⟨workerCount⟩

/-! ## State-machine lemmas (shared helpers) -/

theorem foldl_step_items {β : Type} :
    ∀ (sched : List Nat) (st : PoolState β),
      (sched.foldl step st).items = st.items := by
  intro sched
  induction sched with
  | nil => intro st; rfl
  | cons j rest ih => intro st; simpa [step] using ih (step st j)

theorem foldl_step_ledger {β : Type} :
    ∀ (sched : List Nat) (st : PoolState β),
      (sched.foldl step st).ledger = st.ledger ++ runLedger st.items sched := by
  intro sched
  induction sched with
  | nil => intro st; simp [runLedger]
  | cons j rest ih =>
    intro st
    rw [List.foldl_cons, ih (step st j)]
    simp [step, runLedger, List.append_assoc]

theorem runPool_ledger {β : Type} (items : List (WorkItem β))
    (sched : List Nat) :
    (runPool items sched).ledger = runLedger items sched := by
  simpa [initState] using foldl_step_ledger sched (initState (β := β) items)

theorem runPoolUpTo_ledger {β : Type} (items : List (WorkItem β))
    (sched : List Nat) (k : Nat) :
    (runPoolUpTo items sched k).ledger = runLedger items (sched.take k) := by
  simpa [initState] using
    foldl_step_ledger (sched.take k) (initState (β := β) items)

theorem lookupOutcome_append_left {β : Type}
    (l1 l2 : List (Nat × Outcome β)) (i : Nat) (o : Outcome β)
    (h : lookupOutcome l1 i = some o) :
    lookupOutcome (l1 ++ l2) i = some o := by
  simp only [lookupOutcome, Option.map_eq_some'] at h ⊢
  rcases h with ⟨p, hp, hpo⟩
  refine ⟨p, ?_, hpo⟩
  rw [List.find?_append, hp]
  rfl

/-! ## Completion order from execution durations

When every submitted item starts at once (enough idle workers) and item `i`
takes `times[i]` seconds, item `i` completes at time `times[i]`; the
completion schedule is the submission indices sorted by completion time. -/

/-- Completion time of submission index `i` when all items start together:
its simulated duration. -/
def timeOf (times : List Nat) (i : Nat) : Nat :=
  times.getD i 0

/-- Modelled from the spec: the completion schedule induced by per-item
execution durations `times` — the submission indices in ascending order of
completion time (`as_completed` yields each Outcome as soon as its future
completes). -/
def completionOrder (times : List Nat) : List Nat :=
  List.insertionSort (fun i j => timeOf times i ≤ timeOf times j)
    (List.range times.length)

end WorkerPool

namespace RealWorldExample

/-- An observable side effect performed by `download_image`
(`real-world_example.py`): an HTTP GET of a URL, or a binary file write. -/
inductive Effect where
  | httpGet (url : String)
  | fileWrite (path : String) (content : String)
deriving DecidableEq, Repr

/-- A Python runtime error raised by the embedded code. -/
inductive PyError where
  | typeError (msg : String)
  | indexError (msg : String)
deriving DecidableEq, Repr

/-- Python's `str.split(sep)` for a one-character separator, on the list of
characters: splits at every occurrence of the separator, keeping empty
segments (so consecutive separators yield empty strings). -/
def pySplitAux (sep : Char) : List Char → List Char → List (List Char)
  | [], acc => [acc.reverse]
  | c :: cs, acc =>
    if c = sep then acc.reverse :: pySplitAux sep cs []
    else pySplitAux sep cs (c :: acc)

/-- Python's `s.split(sep)` for a one-character separator `sep`. -/
def pySplit (sep : Char) (s : String) : List String :=
  (pySplitAux sep s.data []).map fun l => ⟨l⟩

/-- The module-level `img_urls` list of `real-world_example.py`. -/
def img_urls : List String := [
  "https://images.unsplash.com/photo-1516117172878-fd2c41f4a759",
  "https://images.unsplash.com/photo-1532009324734-20a7a5813719",
  "https://images.unsplash.com/photo-1524429656589-6633a470097c",
  "https://images.unsplash.com/photo-1530224264768-7ff8c1789d79",
  "https://images.unsplash.com/photo-1564135624576-c5c88640f235",
  "https://images.unsplash.com/photo-1541698444083-023c97d3f4b6",
  "https://images.unsplash.com/photo-1522364723953-452d3431c267",
  "https://images.unsplash.com/photo-1513938709626-033611b8cc03",
  "https://images.unsplash.com/photo-1507143550189-fed454f93097",
  "https://images.unsplash.com/photo-1493976040374-85c8e12f0c0e",
  "https://images.unsplash.com/photo-1504198453319-5ce911bafcde",
  "https://images.unsplash.com/photo-1530122037265-a5f1f91d3b99",
  "https://images.unsplash.com/photo-1516972810927-80185027ca84",
  "https://images.unsplash.com/photo-1550439062-609e1531270e",
  "https://images.unsplash.com/photo-1549692520-acc6669e2f0c"]

/-- The body of `download_image(img_url)` of `real-world_example.py`,
parameterised by the network (`fetch` maps a URL to the response body of
`requests.get(url).content`):
fetch the URL, take segment `[3]` of `img_url.split('/')`, and write the
fetched bytes to `./images/<segment>.jpg`.  Indexing `[3]` on a too-short
list raises `IndexError`, as in Python. -/
def download_image (fetch : String → String) (img_url : String) :
    Except PyError (List Effect) :=
  let img_bytes := fetch img_url
  match (pySplit '/' img_url)[3]? with
  | none => .error (.indexError "list index out of range")
  | some seg =>
    let img_name := "./images/" ++ seg ++ ".jpg"
    .ok [.httpGet img_url, .fileWrite img_name img_bytes]

/-- A call of the Python function `download_image` with an explicit argument
list.  `def download_image(img_url):` declares one required positional
parameter with no default, so Python raises `TypeError` before the body runs
when the call supplies no argument. -/
def call_download_image (fetch : String → String) (args : List String) :
    Except PyError (List Effect) :=
  match args with
  | [u] => download_image fetch u
  | [] => .error (.typeError
      "download_image() missing 1 required positional argument: 'img_url'")
  | _ => .error (.typeError
      "download_image() takes 1 positional argument but more were given")

/-- The loop of `get_images_standard` of `real-world_example.py` over a list
of URLs: each iteration calls `download_image()` with no argument.  The
result is the list of effects performed before the loop stopped, paired with
the error (if any) that aborted it. -/
def get_images_standard_loop (fetch : String → String) :
    List String → List Effect × Option PyError
  | [] => ([], none)
  | _ :: rest =>
    match call_download_image fetch [] with
    | .error e => ([], some e)
    | .ok effs =>
      let r := get_images_standard_loop fetch rest
      (effs ++ r.1, r.2)

/-- `get_images_standard()` of `real-world_example.py`: iterates over the
module-level `img_urls` calling `download_image()` with no argument. -/
def get_images_standard (fetch : String → String) :
    List Effect × Option PyError :=
  get_images_standard_loop fetch img_urls

end RealWorldExample

open WorkerPool RealWorldExample

/-! ## Claim theorems -/

/-- The futures consumed by `AsCompleted`, in yield order, are exactly the
completion schedule (shared helper). -/
theorem asCompleted_fst {β : Type} (items : List (WorkItem β))
    (sched : List Nat) :
    (AsCompleted items sched).map Prod.fst = sched := by
  induction sched with
  | nil => rfl
  | cons j rest ih => simpa [AsCompleted] using ih

/-- The ledger keys of a complete run, in recording order, are exactly the
completion schedule (shared helper). -/
theorem runLedger_fst {β : Type} (items : List (WorkItem β))
    (sched : List Nat) :
    (runLedger items sched).map Prod.fst = sched := by
  induction sched with
  | nil => rfl
  | cons j rest ih => simpa [runLedger] using ih

/-- C1: For every ordered sequence of work items passed to `MapOrdered`, the
returned sequence of Outcomes is in the same order as the items were
submitted (position `i` holds the Outcome of item `i`), independently of the
completion schedule, i.e. of the order in which the items actually finish. -/
theorem mapOrdered_output_order_eq_submission_order {β : Type}
    (items : List (WorkItem β)) (sched : List Nat)
    (h : sched.Perm (List.range items.length)) :
    MapOrdered items sched = items.map fun w => some (execItem w) :=
  mapOrdered_eq_map items sched h

/-- Witness for C1: three items completing in the order `b, a, c` still
yield their Outcomes in submission order `a, b, c`. -/
theorem mapOrdered_output_order_eq_submission_order_witness :
    ([1, 0, 2] : List Nat).Perm (List.range 3) ∧
    MapOrdered (β := Nat) [⟨.ok 10⟩, ⟨.ok 20⟩, ⟨.ok 30⟩] [1, 0, 2] =
      [some (.success 10), some (.success 20), some (.success 30)] :=
  ⟨by decide,
    (mapOrdered_output_order_eq_submission_order
      [⟨.ok 10⟩, ⟨.ok 20⟩, ⟨.ok 30⟩] [1, 0, 2] (by decide)).trans (by decide)⟩

/-- C2: an error raised during a work item's execution is captured into that
item's Outcome as the failure variant; the pool keeps running (all
`items.length` Outcomes are produced), every sibling item that succeeds
still gets its success Outcome, and the captured error is re-raised exactly
when that item's Outcome is retrieved (`raiseOnRetrieve`). -/
theorem workItem_error_captured_and_isolated {β : Type}
    (items : List (WorkItem β)) (sched : List Nat)
    (h : sched.Perm (List.range items.length))
    (j : Nat) (e : String)
    (hje : items[j]? = some (WorkItem.mk (Except.error e))) :
    (MapOrdered items sched)[j]? = some (some (.failure e))
    ∧ (∀ (i : Nat) (v : β), items[i]? = some (WorkItem.mk (Except.ok v)) →
        (MapOrdered items sched)[i]? = some (some (.success v)))
    ∧ (MapOrdered items sched).length = items.length
    ∧ raiseOnRetrieve (β := β) (.failure e) = .error e := by
  rw [mapOrdered_eq_map items sched h]
  refine ⟨?_, ?_, by simp, rfl⟩
  · rw [List.getElem?_map, hje]
    rfl
  · intro i v hiv
    rw [List.getElem?_map, hiv]
    rfl

/-- Witness for C2: items `[ok 1, fail "boom", ok 2]` completing in reverse
order yield exactly three Outcomes with only the middle one failed, and the
captured error resurfaces on retrieval. -/
theorem workItem_error_captured_and_isolated_witness :
    (MapOrdered (β := Nat) [⟨.ok 1⟩, ⟨.error "boom"⟩, ⟨.ok 2⟩] [2, 1, 0])[1]?
        = some (some (.failure "boom"))
    ∧ (MapOrdered (β := Nat) [⟨.ok 1⟩, ⟨.error "boom"⟩, ⟨.ok 2⟩] [2, 1, 0])[0]?
        = some (some (.success 1))
    ∧ (MapOrdered (β := Nat) [⟨.ok 1⟩, ⟨.error "boom"⟩, ⟨.ok 2⟩] [2, 1, 0])[2]?
        = some (some (.success 2))
    ∧ (MapOrdered (β := Nat)
        [⟨.ok 1⟩, ⟨.error "boom"⟩, ⟨.ok 2⟩] [2, 1, 0]).length = 3
    ∧ raiseOnRetrieve (β := Nat) (.failure "boom") = .error "boom" := by
  have h := workItem_error_captured_and_isolated (β := Nat)
    [⟨.ok 1⟩, ⟨.error "boom"⟩, ⟨.ok 2⟩] [2, 1, 0] (by decide) 1 "boom" rfl
  exact ⟨h.1, h.2.1 0 1 rfl, h.2.1 2 2 rfl, h.2.2.1, h.2.2.2⟩

/-- C3: every iteration of `get_images_standard` calls `download_image()`
with no argument although `download_image` requires a URL parameter; since
the module's `img_urls` list is non-empty, every call of
`get_images_standard` (whatever the network returns) stops with a
missing-argument `TypeError` on the first iteration, before any download
effect is performed. -/
theorem get_images_standard_always_type_errors :
    img_urls ≠ []
    ∧ ∀ fetch : String → String,
        get_images_standard fetch =
          ([], some (.typeError
            "download_image() missing 1 required positional argument: 'img_url'")) := by
  exact ⟨by simp [img_urls], fun fetch => rfl⟩

/-- C8: pool construction `New(workerCount)` fails with `ConfigError`
exactly when `workerCount ≤ 0` (so `New 0` and `New (-1)` fail), and
succeeds with a pool instance exactly when `workerCount ≥ 1`. -/
theorem new_pool_fails_iff_nonpositive_worker_count :
    ∀ w : Int,
      (New w = .error .nonPositiveWorkerCount ↔ w ≤ 0)
      ∧ ((∃ p, New w = .ok p) ↔ 1 ≤ w) := by
  intro w
  by_cases hw : w ≤ 0
  · simp only [New, if_pos hw]
    exact ⟨by simp [hw], by constructor <;> intro h <;> [cases h.choose_spec; omega]⟩
  · simp only [New, if_neg hw]
    exact ⟨by simp [hw], by constructor <;> intro h <;> [omega; exact ⟨⟨w⟩, rfl⟩]⟩

/-- C9: retrieving a completed future's Outcome twice returns the identical
Outcome both times, and the second retrieval performs no re-execution of the
work (the pool's execution log is unchanged). -/
theorem get_outcome_idempotent_no_reexecution {β : Type}
    (st : PoolState β) (i : Nat) (o : Outcome β)
    (hc : completedIn st i = some o) :
    (Get st i).1 = some o
    ∧ (Get (Get st i).2 i).1 = some o
    ∧ (Get (Get st i).2 i).2.execLog = st.execLog :=
  ⟨hc, hc, rfl⟩

/-- Witness for C9: a one-item pool whose item completed with value `4`;
both retrievals return `success 4` and the execution log stays `[0]`. -/
theorem get_outcome_idempotent_no_reexecution_witness :
    completedIn (β := Nat) ⟨[⟨.ok 4⟩], [(0, .success 4)], [0]⟩ 0
        = some (.success 4)
    ∧ (Get (β := Nat) ⟨[⟨.ok 4⟩], [(0, .success 4)], [0]⟩ 0).1
        = some (.success 4)
    ∧ (Get (Get (β := Nat) ⟨[⟨.ok 4⟩], [(0, .success 4)], [0]⟩ 0).2 0).1
        = some (.success 4)
    ∧ (Get (Get (β := Nat) ⟨[⟨.ok 4⟩], [(0, .success 4)], [0]⟩ 0).2 0).2.execLog
        = [0] :=
  ⟨rfl, get_outcome_idempotent_no_reexecution
    ⟨[⟨.ok 4⟩], [(0, .success 4)], [0]⟩ 0 (.success 4) rfl⟩

/-- C10: for every URL whose `'/'`-split has at least four segments,
`download_image` performs exactly one HTTP GET on the URL and writes the
full response body to `./images/<s>.jpg` where `<s>` is segment index 3 of
the split; moreover the module's 15 `img_urls` entries yield 15 pairwise
distinct file names. -/
theorem download_image_writes_fourth_segment
    (fetch : String → String) (url : String)
    (h : 4 ≤ (pySplit '/' url).length) :
    download_image fetch url =
      .ok [.httpGet url,
        .fileWrite ("./images/" ++ (pySplit '/' url).getD 3 "" ++ ".jpg")
          (fetch url)]
    ∧ img_urls.length = 15
    ∧ (img_urls.map fun u => (pySplit '/' u).getD 3 "").Nodup := by
  refine ⟨?_, rfl, by decide⟩
  have h3 : 3 < (pySplit '/' url).length := h
  simp only [download_image, List.getElem?_eq_getElem h3,
    List.getD_eq_getElem _ _ h3]

/-- Witness for C10: the first entry of `img_urls` is fetched once and
written to `./images/photo-1516117172878-fd2c41f4a759.jpg`. -/
theorem download_image_writes_fourth_segment_witness :
    4 ≤ (pySplit '/'
        "https://images.unsplash.com/photo-1516117172878-fd2c41f4a759").length
    ∧ download_image (fun _ => "bytes")
        "https://images.unsplash.com/photo-1516117172878-fd2c41f4a759" =
      .ok [.httpGet
            "https://images.unsplash.com/photo-1516117172878-fd2c41f4a759",
        .fileWrite "./images/photo-1516117172878-fd2c41f4a759.jpg" "bytes"] :=
  ⟨by decide,
    ((download_image_writes_fourth_segment (fun _ => "bytes")
      "https://images.unsplash.com/photo-1516117172878-fd2c41f4a759"
      (by decide)).1).trans (by rfl)⟩

/-- C4: for every finite set of `N` futures (pairwise distinct) and every
completion schedule over them, `AsCompleted` yields each future's Outcome
exactly once, yields all `N` of them before the end of the sequence (the
consumed futures are a permutation of the input set), and the produced
sequence has length exactly `N`. -/
theorem asCompleted_yields_each_future_exactly_once {β : Type}
    (items : List (WorkItem β)) (futures sched : List Nat)
    (hnd : futures.Nodup) (h : sched.Perm futures) :
    (AsCompleted items sched).length = futures.length
    ∧ (∀ f ∈ futures, ((AsCompleted items sched).map Prod.fst).count f = 1)
    ∧ ((AsCompleted items sched).map Prod.fst).Perm futures := by
  refine ⟨?_, ?_, ?_⟩
  · simpa [AsCompleted] using h.length_eq
  · intro f hf
    rw [asCompleted_fst, h.count_eq]
    exact List.count_eq_one_of_mem hnd hf
  · rw [asCompleted_fst]
    exact h

/-- Witness for C4: three futures completing in the order `2, 0, 1` are each
yielded exactly once and the sequence has length three. -/
theorem asCompleted_yields_each_future_exactly_once_witness :
    (AsCompleted (β := Nat) [⟨.ok 10⟩, ⟨.ok 20⟩, ⟨.ok 30⟩] [2, 0, 1]).length = 3
    ∧ ((AsCompleted (β := Nat)
        [⟨.ok 10⟩, ⟨.ok 20⟩, ⟨.ok 30⟩] [2, 0, 1]).map Prod.fst).count 0 = 1
    ∧ ((AsCompleted (β := Nat)
        [⟨.ok 10⟩, ⟨.ok 20⟩, ⟨.ok 30⟩] [2, 0, 1]).map Prod.fst).count 1 = 1
    ∧ ((AsCompleted (β := Nat)
        [⟨.ok 10⟩, ⟨.ok 20⟩, ⟨.ok 30⟩] [2, 0, 1]).map Prod.fst).count 2 = 1
    ∧ ((AsCompleted (β := Nat)
        [⟨.ok 10⟩, ⟨.ok 20⟩, ⟨.ok 30⟩] [2, 0, 1]).map Prod.fst).Perm [0, 1, 2] := by
  have h := asCompleted_yields_each_future_exactly_once (β := Nat)
    [⟨.ok 10⟩, ⟨.ok 20⟩, ⟨.ok 30⟩] [0, 1, 2] [2, 0, 1] (by decide) (by decide)
  exact ⟨h.1, h.2.1 0 (by decide), h.2.1 1 (by decide), h.2.1 2 (by decide),
    h.2.2⟩

/-- C5: for every pool run over `N ≥ 1` submitted items and any admissible
completion schedule, each submitted item `i` starts pending, receives
exactly one Outcome in the ledger (no item lost or duplicated), its future
never changes again once completed (monotone lookup along the run), and it
is completed at the end of the run. -/
theorem each_item_exactly_one_outcome {β : Type}
    (items : List (WorkItem β)) (sched : List Nat)
    (hN : 1 ≤ items.length) (h : sched.Perm (List.range items.length))
    (i : Nat) (hi : i < items.length) :
    completedIn (runPoolUpTo items sched 0) i = none
    ∧ ((runPool items sched).ledger.map Prod.fst).count i = 1
    ∧ (∀ (k k' : Nat) (o : Outcome β), k ≤ k' →
        completedIn (runPoolUpTo items sched k) i = some o →
        completedIn (runPoolUpTo items sched k') i = some o)
    ∧ ∃ o, completedIn (runPool items sched) i = some o := by
  have hmem : i ∈ sched := h.mem_iff.mpr (List.mem_range.mpr hi)
  refine ⟨rfl, ?_, ?_, ?_⟩
  · rw [runPool_ledger, runLedger_fst, h.count_eq]
    exact List.count_eq_one_of_mem (List.nodup_range items.length)
      (List.mem_range.mpr hi)
  · intro k k' o hkk hsome
    rw [completedIn, runPoolUpTo_ledger] at hsome ⊢
    have hsplit : sched.take k' = sched.take k ++ (sched.drop k).take (k' - k) := by
      rw [← List.take_add, Nat.add_sub_cancel' hkk]
    rw [hsplit, runLedger, List.map_append]
    exact lookupOutcome_append_left _ _ i o hsome
  · refine ⟨execAt items i, ?_⟩
    rw [completedIn, runPool_ledger]
    exact lookup_runLedger_of_mem items sched i hmem

/-- Witness for C5: two items completing in the order `1, 0`; item `1` is
pending before the run, completed with its Outcome after step one, unchanged
at step two, appears exactly once in the ledger, and is completed at the
end. -/
theorem each_item_exactly_one_outcome_witness :
    completedIn (runPoolUpTo (β := Nat) [⟨.ok 10⟩, ⟨.ok 20⟩] [1, 0] 0) 1 = none
    ∧ ((runPool (β := Nat) [⟨.ok 10⟩, ⟨.ok 20⟩] [1, 0]).ledger.map
        Prod.fst).count 1 = 1
    ∧ completedIn (runPoolUpTo (β := Nat) [⟨.ok 10⟩, ⟨.ok 20⟩] [1, 0] 2) 1
        = some (.success 20)
    ∧ ∃ o, completedIn (runPool (β := Nat) [⟨.ok 10⟩, ⟨.ok 20⟩] [1, 0]) 1
        = some o := by
  have h := each_item_exactly_one_outcome (β := Nat) [⟨.ok 10⟩, ⟨.ok 20⟩]
    [1, 0] (by decide) (by decide) 1 (by decide)
  exact ⟨h.1, h.2.1, h.2.2.1 1 2 (.success 20) (by decide) (by decide),
    h.2.2.2⟩

/-- C6: `Shutdown(wait := true)`, invoked at any point `k` of the run,
drains the remaining queued and in-flight work before returning: in the
state it returns, every submitted item is completed — no submitted work is
abandoned (as on exit of a context-managed pool block). -/
theorem shutdown_wait_completes_all_work {β : Type}
    (items : List (WorkItem β)) (sched : List Nat)
    (h : sched.Perm (List.range items.length)) (k : Nat) :
    ∀ i < items.length, ∃ o,
      completedIn (shutdownWait (runPoolUpTo items sched k) (sched.drop k)) i
        = some o := by
  intro i hi
  have key : shutdownWait (runPoolUpTo items sched k) (sched.drop k)
      = runPool items sched := by
    simp only [shutdownWait, runPoolUpTo, runPool]
    rw [← List.foldl_append, List.take_append_drop]
  rw [key]
  refine ⟨execAt items i, ?_⟩
  rw [completedIn, runPool_ledger]
  exact lookup_runLedger_of_mem items sched i (h.mem_iff.mpr (List.mem_range.mpr hi))

/-- Witness for C6: ten items, shutdown requested after four completions; in
the returned state the first submitted item (and, by the theorem, every
other) is completed. -/
theorem shutdown_wait_completes_all_work_witness :
    ([9, 8, 7, 6, 5, 4, 3, 2, 1, 0] : List Nat).Perm (List.range 10)
    ∧ ∃ o, completedIn
        (shutdownWait
          (runPoolUpTo (β := Nat)
            (List.replicate 10 ⟨.ok 1⟩) [9, 8, 7, 6, 5, 4, 3, 2, 1, 0] 4)
          ([9, 8, 7, 6, 5, 4, 3, 2, 1, 0].drop 4)) 0 = some o :=
  ⟨by decide,
    shutdown_wait_completes_all_work (List.replicate 10 ⟨.ok 1⟩)
      [9, 8, 7, 6, 5, 4, 3, 2, 1, 0] (by decide) 4 0 (by decide)⟩

/-- C7: when the submitted items complete at pairwise distinct times (all
start together; item `i` finishes at time `times[i]`), `AsCompleted` yields
their Outcomes in strictly ascending completion-time order. -/
theorem asCompleted_yields_in_ascending_completion_time {β : Type}
    (items : List (WorkItem β)) (times : List Nat) (hnd : times.Nodup) :
    ((AsCompleted items (completionOrder times)).map
      fun p => timeOf times p.1).Sorted (· < ·) := by
  have hfst : ((AsCompleted items (completionOrder times)).map
      fun p => timeOf times p.1) = (completionOrder times).map (timeOf times) := by
    simp [AsCompleted, List.map_map, Function.comp]
  rw [hfst]
  haveI ht : IsTotal Nat (fun i j => timeOf times i ≤ timeOf times j) :=
    ⟨fun i j => Nat.le_total _ _⟩
  haveI htr : IsTrans Nat (fun i j => timeOf times i ≤ timeOf times j) :=
    ⟨fun a b c hab hbc => le_trans hab hbc⟩
  have hsorted : (completionOrder times).Sorted
      (fun i j => timeOf times i ≤ timeOf times j) :=
    List.sorted_insertionSort _ _
  have hle : ((completionOrder times).map (timeOf times)).Sorted (· ≤ ·) :=
    List.Pairwise.map _ (fun a b hab => hab) hsorted
  have hrange : ((List.range times.length).map (timeOf times)) = times := by
    apply List.ext_getElem
    · simp
    · intro i h1 h2
      simp only [List.getElem_map, List.getElem_range, timeOf]
      exact List.getD_eq_getElem _ _ (by simpa using h2)
  have hperm : ((completionOrder times).map (timeOf times)).Perm times := by
    have h1 : (completionOrder times).Perm (List.range times.length) :=
      List.perm_insertionSort _ _
    calc ((completionOrder times).map (timeOf times)).Perm
          ((List.range times.length).map (timeOf times)) := h1.map _
      _ = times := hrange
  exact hle.lt_of_le (hperm.nodup_iff.mpr hnd)

/-- Witness for C7: durations `[3, 1, 2]` yield Outcomes in the completion
order of durations `1, 2, 3`. -/
theorem asCompleted_yields_in_ascending_completion_time_witness :
    ([3, 1, 2] : List Nat).Nodup
    ∧ ((AsCompleted (β := Nat) [⟨.ok 0⟩, ⟨.ok 0⟩, ⟨.ok 0⟩]
        (completionOrder [3, 1, 2])).map
        fun p => timeOf [3, 1, 2] p.1).Sorted (· < ·)
    ∧ ((AsCompleted (β := Nat) [⟨.ok 0⟩, ⟨.ok 0⟩, ⟨.ok 0⟩]
        (completionOrder [3, 1, 2])).map
        fun p => timeOf [3, 1, 2] p.1) = [1, 2, 3] :=
  ⟨by decide,
    asCompleted_yields_in_ascending_completion_time
      [⟨.ok 0⟩, ⟨.ok 0⟩, ⟨.ok 0⟩] [3, 1, 2] (by decide),
    by decide⟩
